import Mathlib

/-!
# Verification of the olcli reconciliation engine and folder resolver

Shallow embedding of the pull/push/sync algorithms of `src/config.ts` and of
the folder-identity resolution and upload retry logic of `src/client.ts`.

Timestamps are modelled as naturals, file contents as byte lists, the local
directory as a partial map from relative paths to (mtime, content), and the
remote snapshot (the extracted zip archive) as a list of (path, content)
entries.  Remote calls (archive download, per-file upload, probe uploads) are
modelled by explicit oracle parameters so that the decision logic of the
source is a pure function of its inputs.
-/

namespace Olcli

/-- File contents as raw bytes. -/
abbrev Content := List Nat

/-- A local file as enumerated by a scan: relative path, mtime, bytes. -/
structure LocalFile where
  path : String
  mtime : Nat
  content : Content
deriving DecidableEq, Repr

/-- The local directory state: a partial map from relative path to
(modification time, content). -/
def FS := String → Option (Nat × Content)

/-- Model of `writeFileSync`: overwrite (or create) the file at path `p` with content
`c`; its modification time becomes the write time `t`. -/
def FS.write (fs : FS) (p : String) (t : Nat) (c : Content) : FS :=
  fun q => if q = p then some (t, c) else fs q

/-- The directory state corresponding to a scan result. -/
def FS.ofList (l : List LocalFile) : FS :=
  fun q => (l.find? (fun f => f.path = q)).map (fun f => (f.mtime, f.content))

/-- The persisted sync-state record `.olcli.json`. -/
structure Meta where
  projectId : String
  projectName : String
  lastPull : Option Nat
  lastPush : Option Nat
  lastSync : Option Nat
deriving DecidableEq, Repr

/-! ## Pull (src/config.ts, `pull` action, extraction loop lines 685-718) -/

/-- Accumulated state of the pull extraction loop. -/
structure PullRun where
  fs : FS
  fileCount : Nat
  skippedCount : Nat
  skippedFiles : List String

/-- The safety check of the pull loop: a zip entry is skipped iff `--force`
is off, the local file exists, a `lastPull` watermark is set, and the local
mtime is strictly after the watermark
(`!options.force && existsSync(filePath) && lastPull` and
`stats.mtime > lastPull`). -/
def pullSkips (force : Bool) (lastPull : Option Nat) (st : Option (Nat × Content)) : Bool :=
  match force, lastPull, st with
  | false, some t, some (m, _) => decide (t < m)
  | _, _, _ => false

/-- One iteration of the pull extraction loop on a zip entry
`(entryName, data)`. -/
def pullStep (force : Bool) (lastPull : Option Nat) (w : Nat)
    (s : PullRun) (e : String × Content) : PullRun :=
  if pullSkips force lastPull (s.fs e.1) then
    { s with skippedCount := s.skippedCount + 1,
             skippedFiles := s.skippedFiles ++ [e.1] }
  else
    { s with fs := s.fs.write e.1 w e.2, fileCount := s.fileCount + 1 }

/-- The pull extraction loop over all (non-directory) zip entries; `w` is the
clock value stamped on files the loop writes. -/
def pullRun (force : Bool) (lastPull : Option Nat) (w : Nat)
    (fs : FS) (entries : List (String × Content)) : PullRun :=
  entries.foldl (pullStep force lastPull w) ⟨fs, 0, 0, []⟩

/-- The whole pull action after the archive is extracted: run the loop, then
write `.olcli.json` wholesale with `lastPull := now` (`endT`); the record
written holds only projectId, projectName and lastPull. -/
def pull (pid pname : String) (force : Bool) (meta0 : Option Meta)
    (entries : List (String × Content)) (fs : FS) (w endT : Nat) :
    PullRun × Meta :=
  let lastPull := meta0.bind (·.lastPull)
  (pullRun force lastPull w fs entries, ⟨pid, pname, some endT, none, none⟩)

/-! ## Sync (src/config.ts, `sync` action, lines 929-1035) -/

/-- Accumulated state of the sync merge loops. -/
structure SyncRun where
  fs : FS
  filesToUpload : List (String × Content)
  filesUpdatedLocally : List String
  filesKeptLocal : List String
  filesNewLocal : List String

/-- The sync conflict test: the local version is kept iff a local counterpart
exists, a `lastPull` watermark is set, and the local mtime is strictly after
it (`localFile && lastPull && localFile.mtime > lastPull`). -/
def syncKeepsLocal (lastPull : Option Nat) (lf : Option LocalFile) : Bool :=
  match lastPull, lf with
  | some t, some f => decide (t < f.mtime)
  | _, _ => false

/-- One iteration of the sync remote-file merge loop on a remote entry
`(path, remoteContent)`. -/
def syncMergeStep (lastPull : Option Nat) (localFiles : List LocalFile) (w : Nat)
    (s : SyncRun) (e : String × Content) : SyncRun :=
  let lf := localFiles.find? (fun f => f.path = e.1)
  if syncKeepsLocal lastPull lf then
    match lf with
    | some f =>
        if f.content ≠ e.2 then
          { s with filesToUpload := s.filesToUpload ++ [(e.1, f.content)],
                   filesKeptLocal := s.filesKeptLocal ++ [e.1] }
        else s
    | none => s
  else
    { s with fs := s.fs.write e.1 w e.2,
             filesUpdatedLocally := s.filesUpdatedLocally ++ [e.1] }

/-- One iteration of the new-local-file loop on a scanned local file. -/
def syncNewStep (remote : List (String × Content)) (s : SyncRun) (f : LocalFile) : SyncRun :=
  if (remote.find? (fun e => e.1 = f.path)).isSome then s
  else
    { s with filesToUpload := s.filesToUpload ++ [(f.path, f.content)],
             filesNewLocal := s.filesNewLocal ++ [f.path] }

/-- The sync action after the archive is extracted.  Local files are scanned
only when `.olcli.json` exists (`meta0.isSome`); `lastPull` is read from it
likewise.  The merge loop runs over the remote snapshot, then the new-file
loop over the scanned local files; finally the metadata record is rewritten
wholesale with `lastPull` and `lastSync` set to `now` (`endT`). -/
def sync (pid pname : String) (meta0 : Option Meta) (scanned : List LocalFile)
    (remote : List (String × Content)) (fs0 : FS) (w endT : Nat) :
    SyncRun × Meta :=
  let localFiles := if meta0.isSome then scanned else []
  let lastPull := meta0.bind (·.lastPull)
  let s1 := remote.foldl (syncMergeStep lastPull localFiles w) ⟨fs0, [], [], [], []⟩
  let s2 := localFiles.foldl (syncNewStep remote) s1
  (s2, ⟨pid, pname, some endT, none, some endT⟩)

/-- The upload calls the sync action performs: each queued file is uploaded
with `folderId = null` and its relative path as the file name
(`client.uploadFile(projectId, null, file.path, file.content)`). -/
def syncUploadCalls (s : SyncRun) : List (Option String × String × Content) :=
  s.filesToUpload.map (fun e => ((none : Option String), e.1, e.2))

/-! ## Push (src/config.ts, `push` action, lines 748-877)

The local directory is a tree of named entries; `scanDir` walks it skipping
dot-entries and collects the push candidates. -/

mutual
inductive FsEntry where
  | file : String → Nat → Content → FsEntry
  | dir : String → FsEntries → FsEntry
inductive FsEntries where
  | nil : FsEntries
  | cons : FsEntry → FsEntries → FsEntries
end

/-- The source expression `relativeBase ? relativeBase + "/" + name : name`. -/
def relPath (base name : String) : String :=
  if base = "" then name else base ++ "/" ++ name

/-- Model of `entry.name.startsWith('.')`: whether the first character is a dot. -/
def startsWithDot (s : String) : Bool :=
  match s.toList with
  | [] => false
  | c :: _ => c = '.'

/-- The push candidate test of `scanDir`: take the file if `--all` is set or
no `lastPull` watermark exists, otherwise only if its mtime is strictly after
the watermark. -/
def pushWants (all : Bool) (lastPull : Option Nat) (m : Nat) : Bool :=
  match all, lastPull with
  | true, _ => true
  | false, none => true
  | false, some t => decide (t < m)

mutual
/-- The scan `scanDir` on a single directory entry: skip names starting with a dot,
recurse into directories, filter files through the candidate test. -/
def scanEntry (all : Bool) (lastPull : Option Nat) (base : String) :
    FsEntry → List (String × Nat × Content)
  | .file n m c =>
      if startsWithDot n then []
      else if pushWants all lastPull m then [(relPath base n, m, c)] else []
  | .dir n ch =>
      if startsWithDot n then []
      else scanEntries all lastPull (relPath base n) ch
/-- The scan `scanDir` on a list of directory entries. -/
def scanEntries (all : Bool) (lastPull : Option Nat) (base : String) :
    FsEntries → List (String × Nat × Content)
  | .nil => []
  | .cons e es => scanEntry all lastPull base e ++ scanEntries all lastPull base es
end

mutual
/-- All files the scanner can see (no dotted component on the way), without
the candidate filter; used to phrase the candidate characterisation. -/
def visibleEntry (base : String) : FsEntry → List (String × Nat × Content)
  | .file n m c => if startsWithDot n then [] else [(relPath base n, m, c)]
  | .dir n ch => if startsWithDot n then [] else visibleEntries (relPath base n) ch
/-- All visible files below a list of directory entries. -/
def visibleEntries (base : String) : FsEntries → List (String × Nat × Content)
  | .nil => []
  | .cons e es => visibleEntry base e ++ visibleEntries base es
end

/-- Result of the push action. -/
structure PushRun where
  candidates : List (String × Nat × Content)
  uploadCalls : List (Option String × String)
  uploaded : Nat
  failed : Nat
  metaOut : Option Meta
deriving Repr

/-- The push action: scan for candidates; return early when there are none;
with `--dry-run` report the candidates without uploading; otherwise upload
each candidate via `uploadFile(projectId, null, relativePath, content)`
(a per-file failure is counted and the batch continues), then set
`lastPush := now` in the metadata record when one exists. -/
def push (all dryRun : Bool) (meta0 : Option Meta) (tree : FsEntries)
    (uploadOk : String → Bool) (endT : Nat) : PushRun :=
  let lastPull := meta0.bind (·.lastPull)
  let cands := scanEntries all lastPull "" tree
  if cands.isEmpty then ⟨cands, [], 0, 0, meta0⟩
  else if dryRun then ⟨cands, [], 0, 0, meta0⟩
  else
    ⟨cands,
     cands.map (fun c => ((none : Option String), c.1)),
     (cands.filter (fun c => uploadOk c.1)).length,
     (cands.filter (fun c => !uploadOk c.1)).length,
     meta0.map (fun m => { m with lastPush := some endT })⟩

/-! ## Folder resolution (src/client.ts, lines 392-484)

JavaScript number/string helpers modelled faithfully:
`parseInt(s, 16)`, `n.toString(16)` and `s.padStart(8, '0')`. -/

/-- Lowercase hexadecimal digit character. -/
def hexDigitChar (n : Nat) : Char :=
  match n with
  | 0 => '0' | 1 => '1' | 2 => '2' | 3 => '3'
  | 4 => '4' | 5 => '5' | 6 => '6' | 7 => '7'
  | 8 => '8' | 9 => '9' | 10 => 'a' | 11 => 'b'
  | 12 => 'c' | 13 => 'd' | 14 => 'e' | _ => 'f'

/-- Digits of `n` in base 16, most significant first. -/
def natToHexList (n : Nat) : List Char :=
  if h : n < 16 then [hexDigitChar n]
  else natToHexList (n / 16) ++ [hexDigitChar (n % 16)]
  decreasing_by exact Nat.div_lt_self (by omega) (by omega)

/-- JavaScript `n.toString(16)` for a non-negative number. -/
def natToHex (n : Nat) : String := ⟨natToHexList n⟩

/-- JavaScript `i.toString(16)` for any number: negative numbers render as a
minus sign followed by the digits of the absolute value. -/
def jsIntToHex (i : Int) : String :=
  if i < 0 then "-" ++ natToHex i.natAbs else natToHex i.toNat

/-- JavaScript `s.padStart(8, '0')`. -/
def padStart8 (s : String) : String :=
  if s.length < 8 then (⟨List.replicate (8 - s.length) '0'⟩ : String) ++ s else s

/-- Numeric value of one hex digit (`parseInt` accepts both cases). -/
def hexVal (c : Char) : Nat :=
  if '0' ≤ c ∧ c ≤ '9' then c.toNat - '0'.toNat
  else if 'a' ≤ c ∧ c ≤ 'f' then c.toNat - 'a'.toNat + 10
  else if 'A' ≤ c ∧ c ≤ 'F' then c.toNat - 'A'.toNat + 10
  else 0

/-- JavaScript `parseInt(s, 16)` on a string of hex digits. -/
def parseHexNat (s : String) : Nat :=
  s.toList.foldl (fun a c => 16 * a + hexVal c) 0

/-- JavaScript `s.slice(0, n)`. -/
def strTake (s : String) (n : Nat) : String := ⟨s.toList.take n⟩

/-- JavaScript `s.slice(n)`. -/
def strDrop (s : String) (n : Nat) : String := ⟨s.toList.drop n⟩

/-- Model of `computeRootFolderId`: split the 24-hex project id into a 16-character
prefix and an 8-character counter suffix, decrement the counter, render it in
hex padded to 8 characters, and append it to the prefix. -/
def computeRootFolderId (projectId : String) : String :=
  strTake projectId 16
    ++ padStart8 (jsIntToHex ((parseHexNat (strDrop projectId 16) : Int) - 1))

/-- Model of `getRootFolderId`: the first-level folder id from the project metadata
when available, otherwise the arithmetic fallback. -/
def getRootFolderId (metadataRootId : Option String) (projectId : String) : String :=
  metadataRootId.getD (computeRootFolderId projectId)

/-- The candidate list of `probeRootFolderId`: `computeRootFolderId` first
(counter - 1), then counters `counter - i` for `i = 2..50` whenever
`counter - i >= 0`, then counters `counter + i` for `i = 1..50`. -/
def probeCandidates (projectId : String) : List String :=
  computeRootFolderId projectId ::
    (((List.range' 2 49).filterMap (fun (i : Nat) =>
        if 0 ≤ (parseHexNat (strDrop projectId 16) : Int) - (i : Int) then
          some (strTake projectId 16 ++ padStart8
            (jsIntToHex ((parseHexNat (strDrop projectId 16) : Int) - (i : Int))))
        else none))
      ++ (List.range' 1 50).map (fun (i : Nat) => strTake projectId 16 ++ padStart8
            (jsIntToHex ((parseHexNat (strDrop projectId 16) : Int) + (i : Int)))))

/-- Model of `probeRootFolderId`: try a minimal probe upload against each candidate in
order and return the first accepted candidate, `null` when none succeeds.
The outcome of a probe upload against a given folder handle is the oracle
`succeeds`. -/
def probeRootFolderId (projectId : String) (succeeds : String → Bool) : Option String :=
  (probeCandidates projectId).find? succeeds

/-- The probe order as worded by the spec: counter offset -1 first, then
-2 down to -50 omitting offsets that would make the counter negative, then
+1 up to +50. -/
def specProbeOffsets (counter : Nat) : List Int :=
  -1 :: (((List.range' 2 49).map (fun (i : Nat) => -(i : Int))).filter
          (fun o => 0 ≤ (counter : Int) + o)
        ++ (List.range' 1 50).map (fun (i : Nat) => (i : Int)))

/-- The candidate handles in that order: each offset `o` yields the handle
built from the 16-character prefix and the counter shifted by `o`, rendered
as 8 zero-padded hex characters. -/
def specProbeOrder (pfx : String) (counter : Nat) : List String :=
  (specProbeOffsets counter).map
    (fun o => pfx ++ padStart8 (natToHex ((counter : Int) + o).toNat))

/-! ## uploadFile (src/client.ts, lines 489-573) -/

/-- Outcome of one `tryUpload` call: accepted, rejected with
`folder_not_found`, or any other failure (non-OK response or remote
rejection). -/
inductive UploadOutcome where
  | ok : UploadOutcome
  | folderNotFound : UploadOutcome
  | otherError : String → UploadOutcome
deriving DecidableEq, Repr

/-- Whether an outcome is a success. -/
def UploadOutcome.isOk : UploadOutcome → Bool
  | .ok => true
  | _ => false

/-- What an `uploadFile` call did: the `tryUpload` attempts it made, as
(folder handle, file name) pairs in order; whether it invoked probing; and
whether it succeeded (a `false` means the call throws, a per-file upload
failure). -/
structure UploadTrace where
  attempts : List (String × String)
  probed : Bool
  success : Bool
deriving DecidableEq, Repr

/-- JavaScript `s.split('/')`: the slash-separated segments (an empty string yields one
empty segment, a trailing slash an empty last segment, as in JavaScript). -/
def splitSlashAux : List Char → List Char → List String
  | [], acc => [⟨acc.reverse⟩]
  | c :: rest, acc =>
      if c = '/' then (⟨acc.reverse⟩ : String) :: splitSlashAux rest []
      else splitSlashAux rest (c :: acc)

/-- JavaScript `fileName.split('/')`. -/
def jsSplitSlash (s : String) : List String := splitSlashAux s.toList []

/-- The source expression `fileName.split('/').pop() || fileName`: the last slash-separated
segment, falling back to the whole name when that segment is empty. -/
def jsBaseName (fileName : String) : String :=
  let last := (jsSplitSlash fileName).getLastD ""
  if last = "" then fileName else last

/-- The source expression `folderId || getRootFolderId(projectId)`: the folder handle
the first upload attempt targets. -/
def uploadTargetFolder (metadataRootId : Option String) (projectId : String)
    (folderId : Option String) : String :=
  match folderId with
  | some f => f
  | none => getRootFolderId metadataRootId projectId

/-- Model of `uploadFile`: resolve the target folder (the given one, or the root
folder when null), upload under the base name; on a `folder_not_found`
rejection probe for the root folder and, when probing yields a different
handle, retry exactly once with it; fail otherwise.  `attempt` is the remote
outcome of `tryUpload` per folder handle, `probeSucceeds` the probe oracle. -/
def uploadFile (attempt : String → UploadOutcome) (probeSucceeds : String → Bool)
    (metadataRootId : Option String) (projectId : String)
    (folderId : Option String) (fileName : String) : UploadTrace :=
  match attempt (uploadTargetFolder metadataRootId projectId folderId) with
  | .ok => ⟨[(uploadTargetFolder metadataRootId projectId folderId,
              jsBaseName fileName)], false, true⟩
  | .folderNotFound =>
      match probeRootFolderId projectId probeSucceeds with
      | some p =>
          if p = uploadTargetFolder metadataRootId projectId folderId then
            ⟨[(uploadTargetFolder metadataRootId projectId folderId,
               jsBaseName fileName)], true, false⟩
          else
            ⟨[(uploadTargetFolder metadataRootId projectId folderId,
               jsBaseName fileName), (p, jsBaseName fileName)], true,
             (attempt p).isOk⟩
      | none => ⟨[(uploadTargetFolder metadataRootId projectId folderId,
                   jsBaseName fileName)], true, false⟩
  | .otherError _ => ⟨[(uploadTargetFolder metadataRootId projectId folderId,
                        jsBaseName fileName)], false, false⟩

/-! ## Command wrappers: snapshot fetch before any local effect
(src/config.ts lines 657-663 and 929-935) -/

/-- Observable final state of a pull or sync command invocation: the local
directory, the persisted sync-state record, and the fatal error if any. -/
structure CmdResult where
  fs : FS
  meta : Option Meta
  err : Option String

/-- The pull command: `downloadProject` is awaited before any local write or
metadata update; when it fails the command aborts with the directory and the
sync-state record untouched. -/
def pullCommand (pid pname : String) (force : Bool)
    (download : Except String (List (String × Content)))
    (meta0 : Option Meta) (fs0 : FS) (w endT : Nat) : CmdResult :=
  match download with
  | .error e => ⟨fs0, meta0, some e⟩
  | .ok entries =>
      let r := pull pid pname force meta0 entries fs0 w endT
      ⟨r.1.fs, some r.2, none⟩

/-- The sync command: `downloadProject` is awaited before the local scan, any
write and the metadata update; when it fails the command aborts with the
directory and the sync-state record untouched. -/
def syncCommand (pid pname : String)
    (download : Except String (List (String × Content)))
    (meta0 : Option Meta) (scanned : List LocalFile) (fs0 : FS) (w endT : Nat) :
    CmdResult :=
  match download with
  | .error e => ⟨fs0, meta0, some e⟩
  | .ok remote =>
      let r := sync pid pname meta0 scanned remote fs0 w endT
      ⟨r.1.fs, some r.2, none⟩

/-! ## Helper lemmas: the pull extraction loop -/

theorem FS.write_self (fs : FS) (p : String) (t : Nat) (c : Content) :
    FS.write fs p t c p = some (t, c) := by
  simp [FS.write]

theorem FS.write_other (fs : FS) (p q : String) (t : Nat) (c : Content)
    (h : q ≠ p) : FS.write fs p t c q = fs q := by
  simp [FS.write, h]

theorem pullStep_fs_of_skip {force : Bool} {lp : Option Nat} {w : Nat}
    {s : PullRun} {e : String × Content}
    (hsk : pullSkips force lp (s.fs e.1) = true) :
    (pullStep force lp w s e).fs = s.fs := by
  simp [pullStep, hsk]

theorem pullStep_of_skip {force : Bool} {lp : Option Nat} {w : Nat}
    {s : PullRun} {e : String × Content}
    (hsk : pullSkips force lp (s.fs e.1) = true) :
    (pullStep force lp w s e).fileCount = s.fileCount ∧
    (pullStep force lp w s e).skippedCount = s.skippedCount + 1 ∧
    (pullStep force lp w s e).skippedFiles = s.skippedFiles ++ [e.1] := by
  simp [pullStep, hsk]

theorem pullStep_fs_of_write {force : Bool} {lp : Option Nat} {w : Nat}
    {s : PullRun} {e : String × Content}
    (hsk : pullSkips force lp (s.fs e.1) = false) :
    (pullStep force lp w s e).fs = s.fs.write e.1 w e.2 := by
  simp [pullStep, hsk]

theorem pullStep_of_write {force : Bool} {lp : Option Nat} {w : Nat}
    {s : PullRun} {e : String × Content}
    (hsk : pullSkips force lp (s.fs e.1) = false) :
    (pullStep force lp w s e).fileCount = s.fileCount + 1 ∧
    (pullStep force lp w s e).skippedCount = s.skippedCount ∧
    (pullStep force lp w s e).skippedFiles = s.skippedFiles := by
  simp [pullStep, hsk]

theorem pullStep_fs_other {force : Bool} {lp : Option Nat} {w : Nat}
    {s : PullRun} {e : String × Content} {p : String} (h : p ≠ e.1) :
    (pullStep force lp w s e).fs p = s.fs p := by
  simp only [pullStep]
  split
  · rfl
  · exact FS.write_other _ _ _ _ _ h

theorem pullFold_fs_frame (force : Bool) (lp : Option Nat) (w : Nat) (p : String) :
    ∀ (es : List (String × Content)) (s : PullRun), p ∉ es.map Prod.fst →
      (es.foldl (pullStep force lp w) s).fs p = s.fs p := by
  intro es
  induction es with
  | nil => intro s _; rfl
  | cons e es ih =>
      intro s hp
      simp only [List.map_cons, List.mem_cons] at hp
      push_neg at hp
      rw [List.foldl_cons, ih _ hp.2]
      exact pullStep_fs_other hp.1

theorem pullStep_fs_newer {lp : Option Nat} {w : Nat} {s : PullRun}
    {e : String × Content} {p : String} {t m : Nat} {c : Content}
    (hlp : lp = some t) (hm : t < m) (h : s.fs p = some (m, c)) :
    (pullStep false lp w s e).fs p = some (m, c) := by
  by_cases hq : p = e.1
  · have hsk : pullSkips false lp (s.fs e.1) = true := by
      rw [← hq, h, hlp]; simp [pullSkips, hm]
    rw [pullStep_fs_of_skip hsk]; exact h
  · rw [pullStep_fs_other hq]; exact h

theorem pullFold_keeps_newer (lp : Option Nat) (w : Nat) (p : String)
    (t m : Nat) (c : Content) (hlp : lp = some t) (hm : t < m) :
    ∀ (es : List (String × Content)) (s : PullRun), s.fs p = some (m, c) →
      (es.foldl (pullStep false lp w) s).fs p = some (m, c) := by
  intro es
  induction es with
  | nil => intro s h; exact h
  | cons e es ih =>
      intro s h
      rw [List.foldl_cons]
      exact ih _ (pullStep_fs_newer hlp hm h)

theorem pullFold_skipped_mono (force : Bool) (lp : Option Nat) (w : Nat) (x : String) :
    ∀ (es : List (String × Content)) (s : PullRun), x ∈ s.skippedFiles →
      x ∈ (es.foldl (pullStep force lp w) s).skippedFiles := by
  intro es
  induction es with
  | nil => intro s h; exact h
  | cons e es ih =>
      intro s h
      rw [List.foldl_cons]
      apply ih
      simp only [pullStep]
      split
      · simp [h]
      · exact h

theorem pullFold_mem_skipped (lp : Option Nat) (w : Nat) (p : String)
    (t m : Nat) (c : Content) (hlp : lp = some t) (hm : t < m) :
    ∀ (es : List (String × Content)) (s : PullRun), s.fs p = some (m, c) →
      p ∈ es.map Prod.fst →
      p ∈ (es.foldl (pullStep false lp w) s).skippedFiles := by
  intro es
  induction es with
  | nil => intro s _ h; simp at h
  | cons e es ih =>
      intro s hfs hp
      rw [List.foldl_cons]
      rcases List.mem_cons.mp hp with hq | hq
      · -- this entry has path p: it is skipped and recorded
        have hskip : pullSkips false lp (s.fs e.1) = true := by
          rw [← hq, hfs, hlp]; simp [pullSkips, hm]
        apply pullFold_skipped_mono
        rw [(pullStep_of_skip hskip).2.2]
        simp [hq]
      · exact ih _ (pullStep_fs_newer hlp hm hfs) hq

theorem pullFold_writes (force : Bool) (lp : Option Nat) (w : Nat) :
    ∀ (es : List (String × Content)) (s : PullRun),
      (es.map Prod.fst).Nodup →
      (∀ q ∈ es.map Prod.fst, pullSkips force lp (s.fs q) = false) →
      ∀ pc ∈ es, (es.foldl (pullStep force lp w) s).fs pc.1 = some (w, pc.2) := by
  intro es
  induction es with
  | nil => intro s _ _ pc h; simp at h
  | cons e es ih =>
      intro s hnd hsk pc hpc
      simp only [List.map_cons, List.nodup_cons] at hnd
      have hske : pullSkips force lp (s.fs e.1) = false := hsk e.1 (by simp)
      rw [List.foldl_cons]
      rcases List.mem_cons.mp hpc with hq | hq
      · subst hq
        rw [pullFold_fs_frame force lp w pc.1 es _ hnd.1,
            pullStep_fs_of_write hske]
        exact FS.write_self _ _ _ _
      · apply ih _ hnd.2 _ _ hq
        intro q hqm
        have hne : q ≠ e.1 := fun h => hnd.1 (h ▸ hqm)
        rw [pullStep_fs_of_write hske, FS.write_other _ _ _ _ _ hne]
        exact hsk q (by simp [hqm])

theorem pullFold_counts (force : Bool) (lp : Option Nat) (w : Nat) :
    ∀ (es : List (String × Content)) (s : PullRun),
      (es.map Prod.fst).Nodup →
      (∀ q ∈ es.map Prod.fst, pullSkips force lp (s.fs q) = false) →
      (es.foldl (pullStep force lp w) s).fileCount = s.fileCount + es.length ∧
      (es.foldl (pullStep force lp w) s).skippedCount = s.skippedCount := by
  intro es
  induction es with
  | nil => intro s _ _; simp
  | cons e es ih =>
      intro s hnd hsk
      simp only [List.map_cons, List.nodup_cons] at hnd
      have hske : pullSkips force lp (s.fs e.1) = false := hsk e.1 (by simp)
      rw [List.foldl_cons]
      have hrec := ih (pullStep force lp w s e) hnd.2 (by
        intro q hqm
        have hne : q ≠ e.1 := fun h => hnd.1 (h ▸ hqm)
        rw [pullStep_fs_of_write hske, FS.write_other _ _ _ _ _ hne]
        exact hsk q (by simp [hqm]))
      rw [hrec.1, hrec.2, (pullStep_of_write hske).1, (pullStep_of_write hske).2.1]
      constructor
      · simp [List.length_cons]; omega
      · rfl

theorem pullFold_mtime_bound (force : Bool) (lp : Option Nat) (w B : Nat) (hw : w ≤ B) :
    ∀ (es : List (String × Content)) (s : PullRun),
      (∀ p m c, s.fs p = some (m, c) → m ≤ B) →
      ∀ p m c, (es.foldl (pullStep force lp w) s).fs p = some (m, c) → m ≤ B := by
  intro es
  induction es with
  | nil => intro s h; exact h
  | cons e es ih =>
      intro s h
      rw [List.foldl_cons]
      apply ih
      intro p m c hp
      simp only [pullStep] at hp
      split at hp
      · exact h p m c hp
      · simp only [FS.write] at hp
        split at hp
        · cases hp; omega
        · exact h p m c hp

/-- A skip never happens with `--force`, without a watermark, or when the
local file is absent or not strictly newer than the watermark. -/
theorem pullSkips_eq_false_cases (force : Bool) (lp : Option Nat)
    (st : Option (Nat × Content)) :
    (force = true → pullSkips force lp st = false) ∧
    (lp = none → pullSkips force lp st = false) ∧
    (∀ t, lp = some t → (∀ m c, st = some (m, c) → m ≤ t) →
      pullSkips force lp st = false) := by
  refine ⟨?_, ?_, ?_⟩
  · rintro rfl; simp [pullSkips]
  · rintro rfl; simp [pullSkips]
  · rintro t rfl hle
    match force, st with
    | true, _ => simp [pullSkips]
    | false, none => simp [pullSkips]
    | false, some (m, c) =>
        have := hle m c rfl
        simp [pullSkips]
        omega

theorem pullFold_writes_one (force : Bool) (lp : Option Nat) (w : Nat) :
    ∀ (es : List (String × Content)) (s : PullRun),
      (es.map Prod.fst).Nodup →
      ∀ pc ∈ es, pullSkips force lp (s.fs pc.1) = false →
      (es.foldl (pullStep force lp w) s).fs pc.1 = some (w, pc.2) := by
  intro es
  induction es with
  | nil => intro s _ pc h; simp at h
  | cons e es ih =>
      intro s hnd pc hpc hsk
      simp only [List.map_cons, List.nodup_cons] at hnd
      rw [List.foldl_cons]
      rcases List.mem_cons.mp hpc with hq | hq
      · subst hq
        rw [pullFold_fs_frame force lp w pc.1 es _ hnd.1,
            pullStep_fs_of_write hsk]
        exact FS.write_self _ _ _ _
      · have hne : pc.1 ≠ e.1 := by
          intro h
          exact hnd.1 (h ▸ List.mem_map_of_mem Prod.fst hq)
        apply ih _ hnd.2 _ hq
        rw [pullStep_fs_other hne]
        exact hsk

/-- C2: without `--force`, Pull never overwrites a local file whose mtime is
strictly after the `lastPull` watermark, and reports it among the skipped
files; with `--force`, or when no watermark exists, or when the local file is
not strictly newer, the remote content is written over it (stamped with the
write time `w`). -/
theorem C2_pull_conservation
    (pid pname : String) (meta0 : Option Meta) (entries : List (String × Content))
    (fs0 : FS) (w endT : Nat) :
    (∀ t p m c, meta0.bind (·.lastPull) = some t → fs0 p = some (m, c) → t < m →
      (pull pid pname false meta0 entries fs0 w endT).1.fs p = some (m, c) ∧
      (p ∈ entries.map Prod.fst →
        p ∈ (pull pid pname false meta0 entries fs0 w endT).1.skippedFiles)) ∧
    ((entries.map Prod.fst).Nodup → ∀ pc ∈ entries,
      (pull pid pname true meta0 entries fs0 w endT).1.fs pc.1 = some (w, pc.2)) ∧
    ((entries.map Prod.fst).Nodup → meta0.bind (·.lastPull) = none → ∀ pc ∈ entries,
      (pull pid pname false meta0 entries fs0 w endT).1.fs pc.1 = some (w, pc.2)) ∧
    ((entries.map Prod.fst).Nodup → ∀ t, meta0.bind (·.lastPull) = some t →
      ∀ pc ∈ entries, (∀ m c, fs0 pc.1 = some (m, c) → m ≤ t) →
      (pull pid pname false meta0 entries fs0 w endT).1.fs pc.1 = some (w, pc.2)) := by
  refine ⟨?_, ?_, ?_, ?_⟩
  · intro t p m c hlp hfs hm
    constructor
    · exact pullFold_keeps_newer _ w p t m c hlp hm entries _ hfs
    · intro hpm
      exact pullFold_mem_skipped _ w p t m c hlp hm entries _ hfs hpm
  · intro hnd pc hpc
    exact pullFold_writes_one _ _ w entries _ hnd pc hpc
      ((pullSkips_eq_false_cases _ _ _).1 rfl)
  · intro hnd hlp pc hpc
    exact pullFold_writes_one _ _ w entries _ hnd pc hpc
      ((pullSkips_eq_false_cases _ _ _).2.1 hlp)
  · intro hnd t hlp pc hpc hle
    exact pullFold_writes_one _ _ w entries _ hnd pc hpc
      ((pullSkips_eq_false_cases _ _ _).2.2 t hlp hle)

/-- Witness for C2 on a concrete run: a local `main.tex` with mtime 7,
watermark 5, remote content `[66]`; without force the local file survives and
is reported skipped; with force the remote bytes land. -/
theorem C2_pull_conservation_witness :
    (pull "p" "n" false (some ⟨"p", "n", some 5, none, none⟩) [("main.tex", [66])]
      (FS.ofList [⟨"main.tex", 7, [65]⟩]) 8 9).1.fs "main.tex" = some (7, [65]) ∧
    "main.tex" ∈ (pull "p" "n" false (some ⟨"p", "n", some 5, none, none⟩)
      [("main.tex", [66])] (FS.ofList [⟨"main.tex", 7, [65]⟩]) 8 9).1.skippedFiles ∧
    (pull "p" "n" true (some ⟨"p", "n", some 5, none, none⟩) [("main.tex", [66])]
      (FS.ofList [⟨"main.tex", 7, [65]⟩]) 8 9).1.fs "main.tex" = some (8, [66]) := by
  have h := C2_pull_conservation "p" "n" (some ⟨"p", "n", some 5, none, none⟩)
    [("main.tex", [66])] (FS.ofList [⟨"main.tex", 7, [65]⟩]) 8 9
  have h1 := h.1 5 "main.tex" 7 [65] rfl (by decide) (by decide)
  exact ⟨h1.1, h1.2 (by decide),
    h.2.1 (by decide) ("main.tex", [66]) (by decide)⟩

/-- C3 counterexample: pulling twice in succession with no intervening local
edits does NOT perform zero writes on the second run.  Starting from an empty
directory, the first pull writes `main.tex` and sets the watermark; the
second run writes it again (one write, zero skips), because the written
file's mtime is not after the new watermark. -/
theorem C3_pull_idempotence_counterexample :
    let r1 := pull "p" "n" false none [("main.tex", [65])] (fun _ => none) 0 1
    let r2 := pull "p" "n" false (some r1.2) [("main.tex", [65])] r1.1.fs 2 3
    ¬ (r2.1.fileCount = 0 ∧ r2.1.skippedCount = 1) ∧
    r2.1.fileCount = 1 ∧ r2.1.skippedCount = 0 := by
  decide

/-- C3 amended: running Pull twice in succession with no intervening local
edits performs a write for EVERY remote file on the second run and skips
none; each remote file ends with the remote content (in particular files the
first run skipped as locally newer are overwritten by the second run).  The
hypotheses say the first run's watermark (`e1`) is taken after its writes
(`w1`) and after every pre-existing local mtime. -/
theorem C3_pull_twice_amended
    (pid pname : String) (meta0 : Option Meta) (entries : List (String × Content))
    (fs0 : FS) (w1 e1 w2 e2 : Nat) (r1 r2 : PullRun × Meta)
    (hr1 : r1 = pull pid pname false meta0 entries fs0 w1 e1)
    (hr2 : r2 = pull pid pname false (some r1.2) entries r1.1.fs w2 e2)
    (hnd : (entries.map Prod.fst).Nodup)
    (hw1 : w1 ≤ e1)
    (hfs : ∀ p m c, fs0 p = some (m, c) → m ≤ e1) :
    r2.1.skippedCount = 0 ∧ r2.1.fileCount = entries.length ∧
    ∀ pc ∈ entries, r2.1.fs pc.1 = some (w2, pc.2) := by
  subst hr1 hr2
  have hbound : ∀ p m c,
      (pull pid pname false meta0 entries fs0 w1 e1).1.fs p = some (m, c) → m ≤ e1 := by
    intro p m c h
    exact pullFold_mtime_bound false _ w1 e1 hw1 entries _ hfs p m c h
  have hsk : ∀ q ∈ entries.map Prod.fst,
      pullSkips false (some e1) ((pull pid pname false meta0 entries fs0 w1 e1).1.fs q)
        = false := by
    intro q _
    apply (pullSkips_eq_false_cases _ _ _).2.2 e1 rfl
    intro m c h
    exact hbound q m c h
  have hcounts := pullFold_counts false (some e1) w2 entries
    ⟨(pull pid pname false meta0 entries fs0 w1 e1).1.fs, 0, 0, []⟩ hnd hsk
  refine ⟨hcounts.2, by simpa using hcounts.1, ?_⟩
  intro pc hpc
  exact pullFold_writes_one false (some e1) w2 entries _ hnd pc hpc
    (hsk pc.1 (List.mem_map_of_mem Prod.fst hpc))

/-- Witness for the amended C3 on a concrete run: a prior locally-edited
`a.tex` (mtime 4 after first watermark 3) is skipped by the first run, yet
the second run rewrites both files with the remote content and skips
nothing. -/
theorem C3_pull_twice_amended_witness :
    (pull "p" "n" false
      (some (pull "p" "n" false (some ⟨"p", "n", some 3, none, none⟩)
        [("a.tex", [65]), ("b.tex", [66])] (FS.ofList [⟨"a.tex", 4, [90]⟩]) 5 6).2)
      [("a.tex", [65]), ("b.tex", [66])]
      (pull "p" "n" false (some ⟨"p", "n", some 3, none, none⟩)
        [("a.tex", [65]), ("b.tex", [66])] (FS.ofList [⟨"a.tex", 4, [90]⟩]) 5 6).1.fs
      7 8).1.skippedCount = 0 ∧
    (pull "p" "n" false
      (some (pull "p" "n" false (some ⟨"p", "n", some 3, none, none⟩)
        [("a.tex", [65]), ("b.tex", [66])] (FS.ofList [⟨"a.tex", 4, [90]⟩]) 5 6).2)
      [("a.tex", [65]), ("b.tex", [66])]
      (pull "p" "n" false (some ⟨"p", "n", some 3, none, none⟩)
        [("a.tex", [65]), ("b.tex", [66])] (FS.ofList [⟨"a.tex", 4, [90]⟩]) 5 6).1.fs
      7 8).1.fileCount = 2 := by
  have h := C3_pull_twice_amended "p" "n" (some ⟨"p", "n", some 3, none, none⟩)
    [("a.tex", [65]), ("b.tex", [66])] (FS.ofList [⟨"a.tex", 4, [90]⟩]) 5 6 7 8
    _ _ rfl rfl (by decide) (by decide)
    (by
      intro p m c hp
      by_cases hpa : "a.tex" = p
      · subst hpa; simp [FS.ofList] at hp; omega
      · simp [FS.ofList, List.find?, hpa] at hp)
  exact ⟨h.1, by simpa using h.2.1⟩

/-! ## Helper lemmas: the sync merge loops -/

theorem syncMergeStep_conflict {lp : Option Nat} {localFiles : List LocalFile}
    {w : Nat} {s : SyncRun} {e : String × Content} {f : LocalFile}
    (hf : localFiles.find? (fun g => g.path = e.1) = some f)
    (hk : syncKeepsLocal lp (some f) = true)
    (hne : f.content ≠ e.2) :
    (syncMergeStep lp localFiles w s e).fs = s.fs ∧
    (syncMergeStep lp localFiles w s e).filesToUpload
      = s.filesToUpload ++ [(e.1, f.content)] ∧
    (syncMergeStep lp localFiles w s e).filesUpdatedLocally = s.filesUpdatedLocally ∧
    (syncMergeStep lp localFiles w s e).filesKeptLocal = s.filesKeptLocal ++ [e.1] ∧
    (syncMergeStep lp localFiles w s e).filesNewLocal = s.filesNewLocal := by
  simp [syncMergeStep, hf, hk, hne]

theorem syncMergeStep_same {lp : Option Nat} {localFiles : List LocalFile}
    {w : Nat} {s : SyncRun} {e : String × Content} {f : LocalFile}
    (hf : localFiles.find? (fun g => g.path = e.1) = some f)
    (hk : syncKeepsLocal lp (some f) = true)
    (heq : f.content = e.2) :
    syncMergeStep lp localFiles w s e = s := by
  simp [syncMergeStep, hf, hk, heq]

theorem syncMergeStep_write {lp : Option Nat} {localFiles : List LocalFile}
    {w : Nat} {s : SyncRun} {e : String × Content}
    (hk : syncKeepsLocal lp (localFiles.find? (fun g => g.path = e.1)) = false) :
    (syncMergeStep lp localFiles w s e).fs = s.fs.write e.1 w e.2 ∧
    (syncMergeStep lp localFiles w s e).filesToUpload = s.filesToUpload ∧
    (syncMergeStep lp localFiles w s e).filesUpdatedLocally
      = s.filesUpdatedLocally ++ [e.1] ∧
    (syncMergeStep lp localFiles w s e).filesKeptLocal = s.filesKeptLocal ∧
    (syncMergeStep lp localFiles w s e).filesNewLocal = s.filesNewLocal := by
  simp [syncMergeStep, hk]

/-- Each merge step appends to the upload queue, the updated list and the
kept list only entries named after the remote entry it processes, leaves the
new-local list alone, and changes the directory only at that entry's path. -/
theorem syncMergeStep_delta {lp : Option Nat} {localFiles : List LocalFile}
    {w : Nat} {s : SyncRun} {e : String × Content} :
    (∃ ups, (syncMergeStep lp localFiles w s e).filesToUpload
        = s.filesToUpload ++ ups ∧ ∀ x ∈ ups, x.1 = e.1) ∧
    (∃ upd, (syncMergeStep lp localFiles w s e).filesUpdatedLocally
        = s.filesUpdatedLocally ++ upd ∧ ∀ x ∈ upd, x = e.1) ∧
    (syncMergeStep lp localFiles w s e).filesNewLocal = s.filesNewLocal ∧
    (∀ p, p ≠ e.1 → (syncMergeStep lp localFiles w s e).fs p = s.fs p) := by
  by_cases hk : syncKeepsLocal lp (localFiles.find? (fun g => g.path = e.1)) = true
  · match hfind : localFiles.find? (fun g => g.path = e.1) with
    | none => rw [hfind] at hk; cases lp <;> simp [syncKeepsLocal] at hk
    | some f =>
        rw [hfind] at hk
        by_cases hne : f.content = e.2
        · rw [syncMergeStep_same hfind hk hne]
          exact ⟨⟨[], by simp⟩, ⟨[], by simp⟩, rfl, fun p _ => rfl⟩
        · obtain ⟨h1, h2, h3, h4, h5⟩ := syncMergeStep_conflict hfind hk hne
          refine ⟨⟨[(e.1, f.content)], h2, by simp⟩, ⟨[], by simp [h3]⟩, h5, ?_⟩
          intro p _; rw [h1]
  · rw [Bool.not_eq_true] at hk
    obtain ⟨h1, h2, h3, h4, h5⟩ := syncMergeStep_write hk
    refine ⟨⟨[], by simp [h2]⟩, ⟨[e.1], h3, by simp⟩, h5, ?_⟩
    intro p hp
    rw [h1]
    exact FS.write_other _ _ _ _ _ hp

/-- The merge loop only appends entries whose path occurs among the remote
entries it processed, never touches the new-local list, and changes the
directory only at processed paths. -/
theorem syncFold1_delta (lp : Option Nat) (localFiles : List LocalFile) (w : Nat) :
    ∀ (es : List (String × Content)) (s : SyncRun),
      (∃ ups, (es.foldl (syncMergeStep lp localFiles w) s).filesToUpload
          = s.filesToUpload ++ ups ∧ ∀ x ∈ ups, x.1 ∈ es.map Prod.fst) ∧
      (∃ upd, (es.foldl (syncMergeStep lp localFiles w) s).filesUpdatedLocally
          = s.filesUpdatedLocally ++ upd ∧ ∀ x ∈ upd, x ∈ es.map Prod.fst) ∧
      (es.foldl (syncMergeStep lp localFiles w) s).filesNewLocal = s.filesNewLocal ∧
      (∀ p, p ∉ es.map Prod.fst →
        (es.foldl (syncMergeStep lp localFiles w) s).fs p = s.fs p) := by
  intro es
  induction es with
  | nil => intro s; exact ⟨⟨[], by simp⟩, ⟨[], by simp⟩, rfl, fun p _ => rfl⟩
  | cons e es ih =>
      intro s
      obtain ⟨⟨u0, hu0, hu0m⟩, ⟨d0, hd0, hd0m⟩, hn0, hf0⟩ :=
        @syncMergeStep_delta lp localFiles w s e
      obtain ⟨⟨u1, hu1, hu1m⟩, ⟨d1, hd1, hd1m⟩, hn1, hf1⟩ :=
        ih (syncMergeStep lp localFiles w s e)
      rw [List.foldl_cons]
      refine ⟨⟨u0 ++ u1, ?_, ?_⟩, ⟨d0 ++ d1, ?_, ?_⟩, ?_, ?_⟩
      · rw [hu1, hu0, List.append_assoc]
      · intro x hx
        rcases List.mem_append.mp hx with hx | hx
        · simp [hu0m x hx]
        · simp [hu1m x hx]
      · rw [hd1, hd0, List.append_assoc]
      · intro x hx
        rcases List.mem_append.mp hx with hx | hx
        · simp [hd0m x hx]
        · simp [hd1m x hx]
      · rw [hn1, hn0]
      · intro p hp
        simp only [List.map_cons, List.mem_cons] at hp
        push_neg at hp
        rw [hf1 p hp.2, hf0 p hp.1]

/-- The new-local loop leaves the directory, the updated list and the kept
list alone, and appends to the upload queue and the new-local list only
scanned paths that have no remote counterpart. -/
theorem syncFold2_delta (remote : List (String × Content)) :
    ∀ (ls : List LocalFile) (s : SyncRun),
      (ls.foldl (syncNewStep remote) s).fs = s.fs ∧
      (ls.foldl (syncNewStep remote) s).filesUpdatedLocally
        = s.filesUpdatedLocally ∧
      (ls.foldl (syncNewStep remote) s).filesKeptLocal = s.filesKeptLocal ∧
      (∃ ups, (ls.foldl (syncNewStep remote) s).filesToUpload
          = s.filesToUpload ++ ups ∧
        ∀ x ∈ ups, x.1 ∈ ls.map LocalFile.path ∧
          remote.find? (fun e => e.1 = x.1) = none) ∧
      (∃ nw, (ls.foldl (syncNewStep remote) s).filesNewLocal
          = s.filesNewLocal ++ nw ∧
        ∀ x ∈ nw, x ∈ ls.map LocalFile.path ∧
          remote.find? (fun e => e.1 = x) = none) := by
  intro ls
  induction ls with
  | nil => intro s; exact ⟨rfl, rfl, rfl, ⟨[], by simp⟩, ⟨[], by simp⟩⟩
  | cons f ls ih =>
      intro s
      rw [List.foldl_cons]
      by_cases hr : (remote.find? (fun e => e.1 = f.path)).isSome
      · have hstep : syncNewStep remote s f = s := by simp [syncNewStep, hr]
        rw [hstep]
        obtain ⟨h1, h2, h3, ⟨u1, hu1, hu1m⟩, ⟨n1, hn1, hn1m⟩⟩ := ih s
        refine ⟨h1, h2, h3, ⟨u1, hu1, ?_⟩, ⟨n1, hn1, ?_⟩⟩
        · intro x hx; exact ⟨by simp [(hu1m x hx).1], (hu1m x hx).2⟩
        · intro x hx; exact ⟨by simp [(hn1m x hx).1], (hn1m x hx).2⟩
      · obtain ⟨h1, h2, h3, ⟨u1, hu1, hu1m⟩, ⟨n1, hn1, hn1m⟩⟩ :=
          ih (syncNewStep remote s f)
        have hnone : remote.find? (fun e => e.1 = f.path) = none :=
          Option.not_isSome_iff_eq_none.mp hr
        have hstep :
            (syncNewStep remote s f).fs = s.fs ∧
            (syncNewStep remote s f).filesUpdatedLocally = s.filesUpdatedLocally ∧
            (syncNewStep remote s f).filesKeptLocal = s.filesKeptLocal ∧
            (syncNewStep remote s f).filesToUpload
              = s.filesToUpload ++ [(f.path, f.content)] ∧
            (syncNewStep remote s f).filesNewLocal
              = s.filesNewLocal ++ [f.path] := by
          simp [syncNewStep, hnone]
        rw [hstep.1] at h1
        rw [hstep.2.1] at h2
        rw [hstep.2.2.1] at h3
        rw [hstep.2.2.2.1] at hu1
        rw [hstep.2.2.2.2] at hn1
        refine ⟨h1, h2, h3,
          ⟨(f.path, f.content) :: u1, by simpa using hu1, ?_⟩,
          ⟨f.path :: n1, by simpa using hn1, ?_⟩⟩
        · intro x hx
          rcases List.mem_cons.mp hx with hx | hx
          · subst hx; exact ⟨by simp, hnone⟩
          · exact ⟨by simp [(hu1m x hx).1], (hu1m x hx).2⟩
        · intro x hx
          rcases List.mem_cons.mp hx with hx | hx
          · subst hx; exact ⟨by simp, hnone⟩
          · exact ⟨by simp [(hn1m x hx).1], (hn1m x hx).2⟩

/-- The merge loop never writes a path whose local counterpart passes the
conflict test. -/
theorem syncFold1_fs_keeps (lp : Option Nat) (localFiles : List LocalFile)
    (w : Nat) (p : String)
    (hk : syncKeepsLocal lp (localFiles.find? (fun g => g.path = p)) = true) :
    ∀ (es : List (String × Content)) (s : SyncRun),
      (es.foldl (syncMergeStep lp localFiles w) s).fs p = s.fs p := by
  intro es
  induction es with
  | nil => intro s; rfl
  | cons e es ih =>
      intro s
      rw [List.foldl_cons, ih]
      by_cases hp : p = e.1
      · match hfind : localFiles.find? (fun g => g.path = p) with
        | none => rw [hfind] at hk; cases lp <;> simp [syncKeepsLocal] at hk
        | some f =>
            rw [hfind] at hk
            have hfind2 : localFiles.find? (fun g => g.path = e.1) = some f :=
              hp ▸ hfind
            by_cases hne : f.content = e.2
            · rw [syncMergeStep_same hfind2 hk hne]
            · rw [(syncMergeStep_conflict hfind2 hk hne).1]
      · exact (syncMergeStep_delta.2.2.2) p hp

theorem sync_some_eq (pid pname : String) (m0 : Meta) (scanned : List LocalFile)
    (remote : List (String × Content)) (fs0 : FS) (w endT : Nat) :
    sync pid pname (some m0) scanned remote fs0 w endT
      = (scanned.foldl (syncNewStep remote)
          (remote.foldl (syncMergeStep m0.lastPull scanned w) ⟨fs0, [], [], [], []⟩),
         ⟨pid, pname, some endT, none, some endT⟩) := by
  simp [sync]

theorem sync_none_eq (pid pname : String) (scanned : List LocalFile)
    (remote : List (String × Content)) (fs0 : FS) (w endT : Nat) :
    sync pid pname none scanned remote fs0 w endT
      = (remote.foldl (syncMergeStep none [] w) ⟨fs0, [], [], [], []⟩,
         ⟨pid, pname, some endT, none, some endT⟩) := by
  simp [sync]

/-- C1: a remote/local pair at the same path where the local mtime is
strictly after `lastPull` and the contents differ: Sync leaves the local file
unmodified, queues the LOCAL bytes for upload exactly once, and never also
writes that path (it is not among the paths updated from remote). -/
theorem C1_sync_conflict
    (pid pname : String) (m0 : Meta) (scanned : List LocalFile)
    (remote : List (String × Content)) (w endT : Nat)
    (p : String) (rc : Content) (L : LocalFile) (t : Nat)
    (r : SyncRun × Meta)
    (hr : r = sync pid pname (some m0) scanned remote (FS.ofList scanned) w endT)
    (hlp : m0.lastPull = some t)
    (hfind : scanned.find? (fun g => g.path = p) = some L)
    (hmt : t < L.mtime)
    (hne : L.content ≠ rc)
    (hmem : (p, rc) ∈ remote)
    (hnd : (remote.map Prod.fst).Nodup) :
    r.1.fs p = some (L.mtime, L.content) ∧
    (p, L.content) ∈ r.1.filesToUpload ∧
    (r.1.filesToUpload.map Prod.fst).count p = 1 ∧
    p ∉ r.1.filesUpdatedLocally := by
  subst hr
  rw [sync_some_eq, hlp]
  obtain ⟨l1, l2, hsplit⟩ := List.append_of_mem hmem
  have hk : syncKeepsLocal (some t) (scanned.find? (fun g => g.path = p)) = true := by
    rw [hfind]; simp [syncKeepsLocal, hmt]
  have hk2 : syncKeepsLocal (some t) (some L) = true := by
    simp [syncKeepsLocal, hmt]
  -- p occurs in neither l1 nor l2
  have hnd2 := hsplit ▸ hnd
  rw [List.map_append, List.map_cons] at hnd2
  obtain ⟨hn1, hn2, hdisj⟩ := List.nodup_append.mp hnd2
  have hpl2 : p ∉ l2.map Prod.fst := (List.nodup_cons.mp hn2).1
  have hpl1 : p ∉ l1.map Prod.fst := fun hin =>
    hdisj hin (List.mem_cons_self _ _)
  subst hsplit
  -- the merge loop, split at the conflicting entry
  simp only [List.foldl_append, List.foldl_cons]
  obtain ⟨⟨uA, huA, huAm⟩, ⟨dA, hdA, hdAm⟩, -, -⟩ :=
    syncFold1_delta (some t) scanned w l1 ⟨FS.ofList scanned, [], [], [], []⟩
  obtain ⟨hB1, hB2, hB3, hB4, hB5⟩ :=
    @syncMergeStep_conflict (some t) scanned w
      (l1.foldl (syncMergeStep (some t) scanned w) ⟨FS.ofList scanned, [], [], [], []⟩)
      (p, rc) L hfind hk2 hne
  obtain ⟨⟨uC, huC, huCm⟩, ⟨dC, hdC, hdCm⟩, -, -⟩ :=
    syncFold1_delta (some t) scanned w l2
      (syncMergeStep (some t) scanned w
        (l1.foldl (syncMergeStep (some t) scanned w) ⟨FS.ofList scanned, [], [], [], []⟩)
        (p, rc))
  obtain ⟨hD1, hD2, hD3, ⟨uD, huD, huDm⟩, -⟩ :=
    syncFold2_delta (l1 ++ (p, rc) :: l2) scanned
      (l2.foldl (syncMergeStep (some t) scanned w)
        (syncMergeStep (some t) scanned w
          (l1.foldl (syncMergeStep (some t) scanned w) ⟨FS.ofList scanned, [], [], [], []⟩)
          (p, rc)))
  have hremote_p : ∀ x1, List.find? (fun e => e.1 = x1) (l1 ++ (p, rc) :: l2)
      = none → x1 ≠ p := by
    intro x1 hnone hx
    subst hx
    have := List.find?_eq_none.mp hnone (x1, rc) (by simp)
    simp at this
  refine ⟨?_, ?_, ?_, ?_⟩
  · -- the local file is untouched
    rw [hD1, syncFold1_fs_keeps _ _ _ _ hk, hB1,
        syncFold1_fs_keeps _ _ _ _ hk]
    simp [FS.ofList, hfind]
  · -- its content is queued
    rw [huD, huC, hB2]
    simp
  · -- and queued exactly once
    rw [huD, huC, hB2, huA]
    have cA : (uA.map Prod.fst).count p = 0 := by
      rw [List.count_eq_zero]
      intro hin
      obtain ⟨x, hx, hx1⟩ := List.mem_map.mp hin
      exact hpl1 (hx1 ▸ huAm x hx)
    have cC : (uC.map Prod.fst).count p = 0 := by
      rw [List.count_eq_zero]
      intro hin
      obtain ⟨x, hx, hx1⟩ := List.mem_map.mp hin
      exact hpl2 (hx1 ▸ huCm x hx)
    have cD : (uD.map Prod.fst).count p = 0 := by
      rw [List.count_eq_zero]
      intro hin
      obtain ⟨x, hx, hx1⟩ := List.mem_map.mp hin
      exact hremote_p x.1 (huDm x hx).2 hx1
    simp [List.count_append, cA, cC, cD]
  · -- and never also written from remote
    rw [hD2, hdC, hB3, hdA]
    intro hin
    simp only [List.nil_append, List.mem_append] at hin
    rcases hin with hin | hin
    · exact hpl1 (hdAm p hin)
    · exact hpl2 (hdCm p hin)

/-- Witness for C1 on a concrete run: local `main.tex` edited (mtime 6 after
watermark 5) with bytes `[66]` differing from remote `[65]`. -/
theorem C1_sync_conflict_witness :
    (sync "p" "n" (some ⟨"p", "n", some 5, none, none⟩) [⟨"main.tex", 6, [66]⟩]
      [("main.tex", [65])] (FS.ofList [⟨"main.tex", 6, [66]⟩]) 7 8).1.fs "main.tex"
      = some (6, [66]) ∧
    ("main.tex", [66]) ∈ (sync "p" "n" (some ⟨"p", "n", some 5, none, none⟩)
      [⟨"main.tex", 6, [66]⟩] [("main.tex", [65])]
      (FS.ofList [⟨"main.tex", 6, [66]⟩]) 7 8).1.filesToUpload ∧
    ((sync "p" "n" (some ⟨"p", "n", some 5, none, none⟩) [⟨"main.tex", 6, [66]⟩]
      [("main.tex", [65])] (FS.ofList [⟨"main.tex", 6, [66]⟩]) 7
      8).1.filesToUpload.map Prod.fst).count "main.tex" = 1 ∧
    "main.tex" ∉ (sync "p" "n" (some ⟨"p", "n", some 5, none, none⟩)
      [⟨"main.tex", 6, [66]⟩] [("main.tex", [65])]
      (FS.ofList [⟨"main.tex", 6, [66]⟩]) 7 8).1.filesUpdatedLocally := by
  exact C1_sync_conflict "p" "n" ⟨"p", "n", some 5, none, none⟩
    [⟨"main.tex", 6, [66]⟩] [("main.tex", [65])] 7 8
    "main.tex" [65] ⟨"main.tex", 6, [66]⟩ 5 _ rfl rfl (by decide) (by decide)
    (by decide) (by decide) (by decide)

theorem syncNewStep_new {remote : List (String × Content)} {s : SyncRun}
    {f : LocalFile} (hnone : remote.find? (fun e => e.1 = f.path) = none) :
    (syncNewStep remote s f).fs = s.fs ∧
    (syncNewStep remote s f).filesToUpload
      = s.filesToUpload ++ [(f.path, f.content)] ∧
    (syncNewStep remote s f).filesNewLocal = s.filesNewLocal ++ [f.path] := by
  simp [syncNewStep, hnone]

/-- C5: a scanned local file with no remote counterpart is queued for upload
exactly once: its bytes appear once in the upload queue and its path once in
the new-local breakdown. -/
theorem C5_sync_new_file
    (pid pname : String) (m0 : Meta) (scanned : List LocalFile)
    (remote : List (String × Content)) (fs0 : FS) (w endT : Nat)
    (L : LocalFile) (r : SyncRun × Meta)
    (hr : r = sync pid pname (some m0) scanned remote fs0 w endT)
    (hmem : L ∈ scanned)
    (hnd : (scanned.map LocalFile.path).Nodup)
    (hnone : remote.find? (fun e => e.1 = L.path) = none) :
    (L.path, L.content) ∈ r.1.filesToUpload ∧
    (r.1.filesToUpload.map Prod.fst).count L.path = 1 ∧
    r.1.filesNewLocal.count L.path = 1 := by
  subst hr
  rw [sync_some_eq]
  have hnotremote : L.path ∉ remote.map Prod.fst := by
    intro hin
    obtain ⟨x, hx, hx1⟩ := List.mem_map.mp hin
    have := List.find?_eq_none.mp hnone x hx
    simp [hx1] at this
  obtain ⟨u1, u2, hsplit⟩ := List.append_of_mem hmem
  have hnd2 := hsplit ▸ hnd
  rw [List.map_append, List.map_cons] at hnd2
  obtain ⟨hn1, hn2, hdisj⟩ := List.nodup_append.mp hnd2
  have hpu2 : L.path ∉ u2.map LocalFile.path := (List.nodup_cons.mp hn2).1
  have hpu1 : L.path ∉ u1.map LocalFile.path := fun hin =>
    hdisj hin (List.mem_cons_self _ _)
  subst hsplit
  simp only [List.foldl_append, List.foldl_cons]
  -- the merge loop appends only remote paths
  obtain ⟨⟨uA, huA, huAm⟩, -, hnA, -⟩ :=
    syncFold1_delta m0.lastPull (u1 ++ L :: u2) w remote ⟨fs0, [], [], [], []⟩
  -- the new-file loop over u1
  obtain ⟨-, -, -, ⟨uB, huB, huBm⟩, ⟨nB, hnB, hnBm⟩⟩ :=
    syncFold2_delta remote u1
      (remote.foldl (syncMergeStep m0.lastPull (u1 ++ L :: u2) w) ⟨fs0, [], [], [], []⟩)
  -- the step at L
  obtain ⟨-, hC2, hC3⟩ :=
    @syncNewStep_new remote
      (u1.foldl (syncNewStep remote)
        (remote.foldl (syncMergeStep m0.lastPull (u1 ++ L :: u2) w) ⟨fs0, [], [], [], []⟩))
      L hnone
  -- the new-file loop over u2
  obtain ⟨-, -, -, ⟨uD, huD, huDm⟩, ⟨nD, hnD, hnDm⟩⟩ :=
    syncFold2_delta remote u2
      (syncNewStep remote
        (u1.foldl (syncNewStep remote)
          (remote.foldl (syncMergeStep m0.lastPull (u1 ++ L :: u2) w) ⟨fs0, [], [], [], []⟩))
        L)
  have cA : (uA.map Prod.fst).count L.path = 0 := by
    rw [List.count_eq_zero]
    intro hin
    obtain ⟨x, hx, hx1⟩ := List.mem_map.mp hin
    exact hnotremote (hx1 ▸ huAm x hx)
  have cB : (uB.map Prod.fst).count L.path = 0 := by
    rw [List.count_eq_zero]
    intro hin
    obtain ⟨x, hx, hx1⟩ := List.mem_map.mp hin
    exact hpu1 (hx1 ▸ (huBm x hx).1)
  have cD : (uD.map Prod.fst).count L.path = 0 := by
    rw [List.count_eq_zero]
    intro hin
    obtain ⟨x, hx, hx1⟩ := List.mem_map.mp hin
    exact hpu2 (hx1 ▸ (huDm x hx).1)
  have cnB : nB.count L.path = 0 := by
    rw [List.count_eq_zero]
    intro hin
    exact hpu1 ((hnBm _ hin).1)
  have cnD : nD.count L.path = 0 := by
    rw [List.count_eq_zero]
    intro hin
    exact hpu2 ((hnDm _ hin).1)
  refine ⟨?_, ?_, ?_⟩
  · rw [huD, hC2]
    simp
  · rw [huD, hC2, huB, huA]
    simp [List.count_append, cA, cB, cD]
  · rw [hnD, hC3, hnB, hnA]
    simp [List.count_append, cnB, cnD]

/-- Witness for C5 on a concrete run: the new local `figures/plot.png` absent
remotely is queued once. -/
theorem C5_sync_new_file_witness :
    ("figures/plot.png", [1, 2]) ∈ (sync "p" "n" (some ⟨"p", "n", some 5, none, none⟩)
      [⟨"figures/plot.png", 9, [1, 2]⟩] [("main.tex", [65])]
      (FS.ofList [⟨"figures/plot.png", 9, [1, 2]⟩]) 7 8).1.filesToUpload ∧
    ((sync "p" "n" (some ⟨"p", "n", some 5, none, none⟩)
      [⟨"figures/plot.png", 9, [1, 2]⟩] [("main.tex", [65])]
      (FS.ofList [⟨"figures/plot.png", 9, [1, 2]⟩]) 7
      8).1.filesToUpload.map Prod.fst).count "figures/plot.png" = 1 ∧
    (sync "p" "n" (some ⟨"p", "n", some 5, none, none⟩)
      [⟨"figures/plot.png", 9, [1, 2]⟩] [("main.tex", [65])]
      (FS.ofList [⟨"figures/plot.png", 9, [1, 2]⟩]) 7
      8).1.filesNewLocal.count "figures/plot.png" = 1 := by
  exact C5_sync_new_file "p" "n" ⟨"p", "n", some 5, none, none⟩
    [⟨"figures/plot.png", 9, [1, 2]⟩] [("main.tex", [65])]
    (FS.ofList [⟨"figures/plot.png", 9, [1, 2]⟩]) 7 8
    ⟨"figures/plot.png", 9, [1, 2]⟩ _ rfl (by decide) (by decide) (by decide)

theorem syncKeepsLocal_none (lf : Option LocalFile) :
    syncKeepsLocal none lf = false := by
  cases lf <;> rfl

theorem syncFold1_none (localFiles : List LocalFile) (w : Nat) :
    ∀ (es : List (String × Content)) (s : SyncRun),
      (es.foldl (syncMergeStep none localFiles w) s).filesToUpload
        = s.filesToUpload ∧
      (es.foldl (syncMergeStep none localFiles w) s).filesKeptLocal
        = s.filesKeptLocal ∧
      (es.foldl (syncMergeStep none localFiles w) s).filesNewLocal
        = s.filesNewLocal ∧
      (es.foldl (syncMergeStep none localFiles w) s).filesUpdatedLocally
        = s.filesUpdatedLocally ++ es.map Prod.fst := by
  intro es
  induction es with
  | nil => intro s; simp
  | cons e es ih =>
      intro s
      rw [List.foldl_cons]
      obtain ⟨h1, h2, h3, h4⟩ := ih (syncMergeStep none localFiles w s e)
      obtain ⟨-, w2, w3, w4, w5⟩ :=
        syncMergeStep_write (s := s) (e := e) (syncKeepsLocal_none _)
      rw [h1, h2, h3, h4, w2, w3, w4, w5]
      simp

theorem syncFold1_writes_one (lp : Option Nat) (localFiles : List LocalFile) (w : Nat)
    (hkall : ∀ q, syncKeepsLocal lp (localFiles.find? (fun g => g.path = q)) = false) :
    ∀ (es : List (String × Content)) (s : SyncRun),
      (es.map Prod.fst).Nodup →
      ∀ pc ∈ es, (es.foldl (syncMergeStep lp localFiles w) s).fs pc.1 = some (w, pc.2) := by
  intro es
  induction es with
  | nil => intro s _ pc h; simp at h
  | cons e es ih =>
      intro s hnd pc hpc
      simp only [List.map_cons, List.nodup_cons] at hnd
      rw [List.foldl_cons]
      rcases List.mem_cons.mp hpc with hq | hq
      · subst hq
        rw [(syncFold1_delta lp localFiles w es _).2.2.2 pc.1 hnd.1,
            (syncMergeStep_write (s := s) (e := pc) (hkall pc.1)).1]
        exact FS.write_self _ _ _ _
      · exact ih _ hnd.2 pc hq

/-- C10: when no `.olcli.json` exists, sync scans no local files: nothing is
queued for upload (no kept-local and no new-local entries, hence no upload
calls), and every remote file is written over whatever is on disk,
regardless of modification times. -/
theorem C10_sync_no_meta
    (pid pname : String) (scanned : List LocalFile)
    (remote : List (String × Content)) (fs0 : FS) (w endT : Nat)
    (r : SyncRun × Meta)
    (hr : r = sync pid pname none scanned remote fs0 w endT) :
    r.1.filesToUpload = [] ∧ syncUploadCalls r.1 = [] ∧
    r.1.filesKeptLocal = [] ∧ r.1.filesNewLocal = [] ∧
    r.1.filesUpdatedLocally = remote.map Prod.fst ∧
    ((remote.map Prod.fst).Nodup →
      ∀ pc ∈ remote, r.1.fs pc.1 = some (w, pc.2)) := by
  subst hr
  rw [sync_none_eq]
  obtain ⟨h1, h2, h3, h4⟩ := syncFold1_none [] w remote ⟨fs0, [], [], [], []⟩
  refine ⟨h1, ?_, h2, h3, by simpa using h4, ?_⟩
  · simp [syncUploadCalls, h1]
  · intro hnd pc hpc
    exact syncFold1_writes_one none [] w
      (fun q => syncKeepsLocal_none _) remote _ hnd pc hpc

/-- Witness for C10 on a concrete run: without `.olcli.json` the remote file
overwrites a local file whose mtime (99) is far newer than anything, and
nothing is uploaded. -/
theorem C10_sync_no_meta_witness :
    (sync "p" "n" none [⟨"main.tex", 99, [66]⟩] [("main.tex", [65])]
      (FS.ofList [⟨"main.tex", 99, [66]⟩]) 7 8).1.filesToUpload = [] ∧
    (sync "p" "n" none [⟨"main.tex", 99, [66]⟩] [("main.tex", [65])]
      (FS.ofList [⟨"main.tex", 99, [66]⟩]) 7 8).1.fs "main.tex" = some (7, [65]) := by
  have h := C10_sync_no_meta "p" "n" [⟨"main.tex", 99, [66]⟩] [("main.tex", [65])]
    (FS.ofList [⟨"main.tex", 99, [66]⟩]) 7 8 _ rfl
  exact ⟨h.1, h.2.2.2.2.2 (by decide) ("main.tex", [65]) (by decide)⟩

/-! ## Helper lemmas: the push scanner -/

mutual
theorem scanEntry_eq_filter (all : Bool) (lp : Option Nat) (base : String) :
    (e : FsEntry) → scanEntry all lp base e
      = (visibleEntry base e).filter (fun x => pushWants all lp x.2.1)
  | .file n m c => by
      by_cases hdot : startsWithDot n
      · simp [scanEntry, visibleEntry, hdot]
      · by_cases hw : pushWants all lp m = true
        · simp [scanEntry, visibleEntry, hdot, hw]
        · rw [Bool.not_eq_true] at hw
          simp [scanEntry, visibleEntry, hdot, hw]
  | .dir n ch => by
      by_cases hdot : startsWithDot n
      · simp [scanEntry, visibleEntry, hdot]
      · simp only [scanEntry, visibleEntry, hdot, if_neg, Bool.false_eq_true,
          not_false_eq_true]
        exact scanEntries_eq_filter all lp (relPath base n) ch
theorem scanEntries_eq_filter (all : Bool) (lp : Option Nat) (base : String) :
    (es : FsEntries) → scanEntries all lp base es
      = (visibleEntries base es).filter (fun x => pushWants all lp x.2.1)
  | .nil => rfl
  | .cons e es => by
      simp only [scanEntries, visibleEntries, List.filter_append]
      rw [scanEntry_eq_filter all lp base e, scanEntries_eq_filter all lp base es]
end

theorem pushWants_iff (all : Bool) (lp : Option Nat) (m : Nat) :
    pushWants all lp m = true ↔
      (all = true ∨ lp = none ∨ ∃ t, lp = some t ∧ t < m) := by
  cases all <;> cases lp <;> simp [pushWants]

theorem push_candidates_eq (all dryRun : Bool) (meta0 : Option Meta)
    (tree : FsEntries) (uploadOk : String → Bool) (endT : Nat) :
    (push all dryRun meta0 tree uploadOk endT).candidates
      = scanEntries all (meta0.bind (·.lastPull)) "" tree := by
  simp only [push]
  split
  · rfl
  · split <;> rfl

/-- C4: a local file is a push candidate iff it is visible to the scan (no
dotted component) and `--all` is set, or no `lastPull` watermark exists, or
its mtime is strictly after the watermark; with `--dry-run` the candidate
list is computed but nothing is uploaded and the metadata is untouched. -/
theorem C4_push_candidates
    (all dryRun : Bool) (meta0 : Option Meta) (tree : FsEntries)
    (uploadOk : String → Bool) (endT : Nat) :
    (∀ rel m c,
      (rel, m, c) ∈ (push all dryRun meta0 tree uploadOk endT).candidates ↔
      ((rel, m, c) ∈ visibleEntries "" tree ∧
        (all = true ∨ meta0.bind (·.lastPull) = none ∨
          ∃ t, meta0.bind (·.lastPull) = some t ∧ t < m))) ∧
    (dryRun = true →
      (push all dryRun meta0 tree uploadOk endT).uploadCalls = [] ∧
      (push all dryRun meta0 tree uploadOk endT).uploaded = 0 ∧
      (push all dryRun meta0 tree uploadOk endT).failed = 0 ∧
      (push all dryRun meta0 tree uploadOk endT).metaOut = meta0) := by
  constructor
  · intro rel m c
    rw [push_candidates_eq, scanEntries_eq_filter, List.mem_filter]
    exact and_congr_right (fun _ => pushWants_iff all _ m)
  · rintro rfl
    simp only [push]
    split
    · exact ⟨rfl, rfl, rfl, rfl⟩
    · simp

/-- Witness for C4 on a concrete tree: `figs/plot.png` (mtime 7 after
watermark 5) is a candidate, a file under the hidden directory `.git` is
not, and a dry run uploads nothing. -/
theorem C4_push_candidates_witness :
    ("figs/plot.png", 7, [1]) ∈ (push false false (some ⟨"p", "n", some 5, none, none⟩)
      (.cons (.file "main.tex" 3 [65])
        (.cons (.dir "figs" (.cons (.file "plot.png" 7 [1]) .nil))
          (.cons (.dir ".git" (.cons (.file "cfg" 9 [2]) .nil)) .nil)))
      (fun _ => true) 9).candidates ∧
    ¬ (".git/cfg", 9, [2]) ∈ (push false false (some ⟨"p", "n", some 5, none, none⟩)
      (.cons (.file "main.tex" 3 [65])
        (.cons (.dir "figs" (.cons (.file "plot.png" 7 [1]) .nil))
          (.cons (.dir ".git" (.cons (.file "cfg" 9 [2]) .nil)) .nil)))
      (fun _ => true) 9).candidates ∧
    (push false true (some ⟨"p", "n", some 5, none, none⟩)
      (.cons (.file "main.tex" 3 [65])
        (.cons (.dir "figs" (.cons (.file "plot.png" 7 [1]) .nil))
          (.cons (.dir ".git" (.cons (.file "cfg" 9 [2]) .nil)) .nil)))
      (fun _ => true) 9).uploadCalls = [] := by
  refine ⟨?_, ?_, ?_⟩
  · exact ((C4_push_candidates false false (some ⟨"p", "n", some 5, none, none⟩)
      _ (fun _ => true) 9).1 "figs/plot.png" 7 [1]).mpr
      ⟨by simp [visibleEntries, visibleEntry, relPath, startsWithDot],
       Or.inr (Or.inr ⟨5, rfl, by decide⟩)⟩
  · intro hmem
    have h := ((C4_push_candidates false false (some ⟨"p", "n", some 5, none, none⟩)
      _ (fun _ => true) 9).1 ".git/cfg" 9 [2]).mp hmem
    exact absurd h.1 (by simp [visibleEntries, visibleEntry, relPath, startsWithDot])
  · exact ((C4_push_candidates false true (some ⟨"p", "n", some 5, none, none⟩)
      _ (fun _ => true) 9).2 rfl).1

/-- C8: when fetching the remote snapshot (downloading the project archive)
fails, the whole pull or sync call fails with the given error, before any
local file is written and before the watermark record is updated: the
resulting directory state and sync-state record are the initial ones. -/
theorem C8_fetch_failure_atomic
    (pid pname : String) (force : Bool) (msg : String)
    (download : Except String (List (String × Content)))
    (meta0 : Option Meta) (scanned : List LocalFile) (fs0 : FS) (w endT : Nat)
    (hdl : download = Except.error msg) :
    pullCommand pid pname force download meta0 fs0 w endT
      = ⟨fs0, meta0, some msg⟩ ∧
    syncCommand pid pname download meta0 scanned fs0 w endT
      = ⟨fs0, meta0, some msg⟩ := by
  subst hdl
  exact ⟨rfl, rfl⟩

/-- Witness for C8: a failed download leaves a concrete directory and
metadata untouched. -/
theorem C8_fetch_failure_atomic_witness :
    pullCommand "p" "n" false (Except.error "Failed to download project: 500")
      (some ⟨"p", "n", some 5, none, none⟩) (FS.ofList [⟨"main.tex", 6, [66]⟩]) 7 8
      = ⟨FS.ofList [⟨"main.tex", 6, [66]⟩], some ⟨"p", "n", some 5, none, none⟩,
          some "Failed to download project: 500"⟩ ∧
    syncCommand "p" "n" (Except.error "Failed to download project: 500")
      (some ⟨"p", "n", some 5, none, none⟩) [⟨"main.tex", 6, [66]⟩]
      (FS.ofList [⟨"main.tex", 6, [66]⟩]) 7 8
      = ⟨FS.ofList [⟨"main.tex", 6, [66]⟩], some ⟨"p", "n", some 5, none, none⟩,
          some "Failed to download project: 500"⟩ :=
  C8_fetch_failure_atomic "p" "n" false "Failed to download project: 500"
    (Except.error "Failed to download project: 500")
    (some ⟨"p", "n", some 5, none, none⟩) [⟨"main.tex", 6, [66]⟩]
    (FS.ofList [⟨"main.tex", 6, [66]⟩]) 7 8 rfl

/-! ## Helper lemmas: hex arithmetic and folder probing -/

theorem hexVal_hexDigitChar_fin : ∀ d : Fin 16, hexVal (hexDigitChar d.val) = d.val := by
  decide

theorem hexVal_hexDigitChar {d : Nat} (h : d < 16) : hexVal (hexDigitChar d) = d :=
  hexVal_hexDigitChar_fin ⟨d, h⟩

theorem parse_natToHexList (n : Nat) :
    List.foldl (fun a c => 16 * a + hexVal c) 0 (natToHexList n) = n := by
  induction n using Nat.strong_induction_on with
  | _ n ih =>
      rw [natToHexList]
      by_cases h : n < 16
      · simp [h, hexVal_hexDigitChar h]
      · rw [dif_neg h, List.foldl_append]
        rw [ih (n / 16) (Nat.div_lt_self (by omega) (by omega))]
        simp [hexVal_hexDigitChar (Nat.mod_lt n (by omega))]
        omega

theorem parse_zeros (k : Nat) (l : List Char) :
    List.foldl (fun a c => 16 * a + hexVal c) 0 (List.replicate k '0' ++ l)
      = List.foldl (fun a c => 16 * a + hexVal c) 0 l := by
  induction k with
  | zero => rfl
  | succ k ih => simpa [List.replicate_succ, hexVal] using ih

theorem parseHexNat_pad (n : Nat) : parseHexNat (padStart8 (natToHex n)) = n := by
  unfold parseHexNat padStart8 natToHex
  by_cases h : (⟨natToHexList n⟩ : String).length < 8
  · rw [if_pos h]
    show List.foldl _ 0
      ((⟨List.replicate _ '0'⟩ : String) ++ (⟨natToHexList n⟩ : String)).data = n
    rw [String.data_append]
    show List.foldl _ 0 (List.replicate _ '0' ++ natToHexList n) = n
    rw [parse_zeros]
    exact parse_natToHexList n
  · rw [if_neg h]
    exact parse_natToHexList n

theorem strTake_append16 (pfx x : String) (hp : pfx.toList.length = 16) :
    strTake (pfx ++ x) 16 = pfx := by
  unfold strTake
  show (⟨((pfx ++ x)).toList.take 16⟩ : String) = pfx
  have hd : (pfx ++ x).toList = pfx.toList ++ x.toList := String.data_append pfx x
  rw [hd, ← hp, List.take_left]
  rfl

theorem strDrop_append16 (pfx x : String) (hp : pfx.toList.length = 16) :
    strDrop (pfx ++ x) 16 = x := by
  unfold strDrop
  show (⟨((pfx ++ x)).toList.drop 16⟩ : String) = x
  have hd : (pfx ++ x).toList = pfx.toList ++ x.toList := String.data_append pfx x
  rw [hd, ← hp, List.drop_left]
  rfl

theorem computeRootFolderId_eq (pfx : String) (counter : Nat)
    (hp : pfx.toList.length = 16) (hc : 1 ≤ counter) :
    computeRootFolderId (pfx ++ padStart8 (natToHex counter))
      = pfx ++ padStart8 (natToHex (counter - 1)) := by
  unfold computeRootFolderId
  rw [strTake_append16 _ _ hp, strDrop_append16 _ _ hp, parseHexNat_pad]
  have h1 : jsIntToHex ((counter : Int) - 1) = natToHex ((counter : Int) - 1).toNat := by
    unfold jsIntToHex
    rw [if_neg (by omega)]
  have h2 : ((counter : Int) - 1).toNat = counter - 1 := by omega
  rw [h1, h2]

theorem filterMap_ite {α β : Type} (p : α → Prop) [DecidablePred p] (g : α → β)
    (l : List α) :
    (l.filterMap (fun a => if p a then some (g a) else none))
      = (l.filter (fun a => decide (p a))).map g := by
  induction l with
  | nil => rfl
  | cons a l ih => by_cases h : p a <;> simp [h, ih]

theorem probeCandidates_eq_spec (pfx : String) (counter : Nat)
    (hp : pfx.toList.length = 16) (hc : 1 ≤ counter) :
    probeCandidates (pfx ++ padStart8 (natToHex counter))
      = specProbeOrder pfx counter := by
  unfold probeCandidates specProbeOrder specProbeOffsets
  rw [strTake_append16 _ _ hp, strDrop_append16 _ _ hp, parseHexNat_pad,
      computeRootFolderId_eq pfx counter hp hc]
  rw [List.map_cons, List.map_append]
  have hhead : pfx ++ padStart8 (natToHex ((counter : Int) + -1).toNat)
      = pfx ++ padStart8 (natToHex (counter - 1)) := by
    have h2 : ((counter : Int) + -1).toNat = counter - 1 := by omega
    rw [h2]
  rw [hhead]
  have hneg : (List.range' 2 49).filterMap (fun (i : Nat) =>
        if 0 ≤ (counter : Int) - (i : Int) then
          some (pfx ++ padStart8 (jsIntToHex ((counter : Int) - (i : Int))))
        else none)
      = (((List.range' 2 49).map (fun (i : Nat) => -(i : Int))).filter
          (fun o => 0 ≤ (counter : Int) + o)).map
          (fun o => pfx ++ padStart8 (natToHex ((counter : Int) + o).toNat)) := by
    rw [List.filter_map, List.map_map, filterMap_ite]
    have hfil : (List.range' 2 49).filter
        ((fun o => decide (0 ≤ (counter : Int) + o)) ∘ (fun (i : Nat) => -(i : Int)))
        = (List.range' 2 49).filter
            (fun (i : Nat) => decide (0 ≤ (counter : Int) - (i : Int))) := by
      apply List.filter_congr
      intro i _
      simp only [Function.comp]
      rw [decide_eq_decide]
      omega
    rw [hfil]
    apply List.map_congr_left
    intro i hi
    have hge : 0 ≤ (counter : Int) - (i : Int) := by
      have := (List.mem_filter.mp hi).2
      simpa using this
    have h1 : jsIntToHex ((counter : Int) - (i : Int))
        = natToHex ((counter : Int) - (i : Int)).toNat := by
      unfold jsIntToHex
      rw [if_neg (by omega)]
    have h2 : ((counter : Int) + -(i : Int)) = (counter : Int) - (i : Int) := by
      ring
    simp only [Function.comp, h1, h2]
  have hpos : (List.range' 1 50).map (fun (i : Nat) =>
        pfx ++ padStart8 (jsIntToHex ((counter : Int) + (i : Int))))
      = ((List.range' 1 50).map (fun (i : Nat) => (i : Int))).map
          (fun o => pfx ++ padStart8 (natToHex ((counter : Int) + o).toNat)) := by
    rw [List.map_map]
    apply List.map_congr_left
    intro i _
    have h1 : jsIntToHex ((counter : Int) + (i : Int))
        = natToHex ((counter : Int) + (i : Int)).toNat := by
      unfold jsIntToHex
      rw [if_neg (by omega)]
    simp only [Function.comp, h1]
  rw [hneg, hpos]

theorem find?_first {α : Type} (p : α → Bool) :
    ∀ (l : List α) (a : α), l.find? p = some a →
      p a = true ∧ ∃ l1 l2, l = l1 ++ a :: l2 ∧ ∀ x ∈ l1, p x = false := by
  intro l
  induction l with
  | nil => intro a h; simp at h
  | cons b l ih =>
      intro a h
      by_cases hb : p b = true
      · rw [List.find?_cons_of_pos _ hb] at h
        cases h
        exact ⟨hb, [], l, rfl, by simp⟩
      · rw [Bool.not_eq_true] at hb
        rw [List.find?_cons_of_neg _ (by simp [hb])] at h
        obtain ⟨hpa, l1, l2, hsplit, hfa⟩ := ih a h
        refine ⟨hpa, b :: l1, l2, by rw [hsplit]; rfl, ?_⟩
        intro x hx
        rcases List.mem_cons.mp hx with hx | hx
        · subst hx; exact hb
        · exact hfa x hx

/-- C6: on a 24-hex project identifier (prefix of 16 hex characters and an
8-hex counter with value at least 1), probing generates and tries candidates
in exactly the spec's fixed offset order -1, -2..-50 (omitting offsets that
would make the counter negative), +1..+50, returns the first candidate whose
probe upload succeeds, and returns null iff no candidate succeeds. -/
theorem C6_probe_order (pfx : String) (counter : Nat) (succeeds : String → Bool)
    (hp : pfx.toList.length = 16) (hc : 1 ≤ counter) :
    probeCandidates (pfx ++ padStart8 (natToHex counter))
      = specProbeOrder pfx counter ∧
    probeRootFolderId (pfx ++ padStart8 (natToHex counter)) succeeds
      = (specProbeOrder pfx counter).find? succeeds ∧
    (probeRootFolderId (pfx ++ padStart8 (natToHex counter)) succeeds = none ↔
      ∀ cand ∈ specProbeOrder pfx counter, succeeds cand = false) ∧
    (∀ cand,
      probeRootFolderId (pfx ++ padStart8 (natToHex counter)) succeeds = some cand →
      succeeds cand = true ∧
      ∃ l1 l2, specProbeOrder pfx counter = l1 ++ cand :: l2 ∧
        ∀ x ∈ l1, succeeds x = false) := by
  have heq := probeCandidates_eq_spec pfx counter hp hc
  refine ⟨heq, ?_, ?_, ?_⟩
  · unfold probeRootFolderId
    rw [heq]
  · unfold probeRootFolderId
    rw [heq]
    constructor
    · intro h cand hcand
      rw [Bool.eq_false_iff]
      exact List.find?_eq_none.mp h cand hcand
    · intro h
      apply List.find?_eq_none.mpr
      intro x hx
      simp [h x hx]
  · intro cand h
    unfold probeRootFolderId at h
    rw [heq] at h
    exact find?_first succeeds _ cand h

/-- Witness for C6: a concrete prefix and counter 3; with no candidate
succeeding, probing returns null. -/
theorem C6_probe_order_witness :
    probeRootFolderId ("aabbccdd00112233" ++ padStart8 (natToHex 3)) (fun _ => false)
      = none := by
  have h := C6_probe_order "aabbccdd00112233" 3 (fun _ => false) (by decide) (by decide)
  exact h.2.2.1.mpr (fun cand _ => rfl)

/-! ## uploadFile: retry discipline and name flattening -/

/-- C7: `uploadFile` makes at most two attempts; a successful or
otherwise-failing first attempt is never retried (and a non-`folder_not_found`
failure throws without probing); only a `folder_not_found` first attempt
triggers probing, and exactly one retry happens, with the probed handle, when
probing yields a handle different from the first target; when that retry does
not succeed the call fails as a per-file upload failure. -/
theorem C7_upload_retry
    (attempt : String → UploadOutcome) (probeSucceeds : String → Bool)
    (metadataRootId : Option String) (projectId : String)
    (folderId : Option String) (fileName : String) (u : UploadTrace)
    (hu : u = uploadFile attempt probeSucceeds metadataRootId projectId
      folderId fileName) :
    u.attempts.length ≤ 2 ∧
    (attempt (uploadTargetFolder metadataRootId projectId folderId) = .ok →
      u = ⟨[(uploadTargetFolder metadataRootId projectId folderId,
             jsBaseName fileName)], false, true⟩) ∧
    (∀ msg,
      attempt (uploadTargetFolder metadataRootId projectId folderId)
          = .otherError msg →
      u = ⟨[(uploadTargetFolder metadataRootId projectId folderId,
             jsBaseName fileName)], false, false⟩) ∧
    (u.attempts.length = 2 →
      attempt (uploadTargetFolder metadataRootId projectId folderId)
          = .folderNotFound ∧
      ∃ p, probeRootFolderId projectId probeSucceeds = some p ∧
        p ≠ uploadTargetFolder metadataRootId projectId folderId ∧
        u = ⟨[(uploadTargetFolder metadataRootId projectId folderId,
               jsBaseName fileName), (p, jsBaseName fileName)], true,
             (attempt p).isOk⟩) ∧
    (attempt (uploadTargetFolder metadataRootId projectId folderId)
        = .folderNotFound →
      u.probed = true ∧
      ∀ p, probeRootFolderId projectId probeSucceeds = some p →
        p ≠ uploadTargetFolder metadataRootId projectId folderId →
        u.attempts = [(uploadTargetFolder metadataRootId projectId folderId,
                       jsBaseName fileName), (p, jsBaseName fileName)] ∧
        ((attempt p).isOk = false → u.success = false)) := by
  subst hu
  cases hat : attempt (uploadTargetFolder metadataRootId projectId folderId) with
  | ok =>
      have heq : uploadFile attempt probeSucceeds metadataRootId projectId
          folderId fileName
          = ⟨[(uploadTargetFolder metadataRootId projectId folderId,
               jsBaseName fileName)], false, true⟩ := by
        unfold uploadFile
        rw [hat]
      rw [heq]
      refine ⟨by simp, fun _ => rfl, ?_, ?_, ?_⟩
      · intro msg h; cases h
      · intro h; simp at h
      · intro h; cases h
  | otherError msg =>
      have heq : uploadFile attempt probeSucceeds metadataRootId projectId
          folderId fileName
          = ⟨[(uploadTargetFolder metadataRootId projectId folderId,
               jsBaseName fileName)], false, false⟩ := by
        unfold uploadFile
        rw [hat]
      rw [heq]
      refine ⟨by simp, ?_, fun m h => rfl, ?_, ?_⟩
      · intro h; cases h
      · intro h; simp at h
      · intro h; cases h
  | folderNotFound =>
      cases hpr : probeRootFolderId projectId probeSucceeds with
      | none =>
          have heq : uploadFile attempt probeSucceeds metadataRootId projectId
              folderId fileName
              = ⟨[(uploadTargetFolder metadataRootId projectId folderId,
                   jsBaseName fileName)], true, false⟩ := by
            unfold uploadFile
            rw [hat, hpr]
          rw [heq]
          refine ⟨by simp, ?_, ?_, ?_, ?_⟩
          · intro h; cases h
          · intro m h; cases h
          · intro h; simp at h
          · intro _
            refine ⟨rfl, ?_⟩
            intro p hp
            cases hp
      | some p =>
          by_cases hpt : p = uploadTargetFolder metadataRootId projectId folderId
          · have heq : uploadFile attempt probeSucceeds metadataRootId projectId
                folderId fileName
                = ⟨[(uploadTargetFolder metadataRootId projectId folderId,
                     jsBaseName fileName)], true, false⟩ := by
              unfold uploadFile
              rw [hat, hpr]
              simp [hpt]
            rw [heq]
            refine ⟨by simp, ?_, ?_, ?_, ?_⟩
            · intro h; cases h
            · intro m h; cases h
            · intro h; simp at h
            · intro _
              refine ⟨rfl, ?_⟩
              intro q hq hqt
              cases hq
              exact absurd hpt hqt
          · have heq : uploadFile attempt probeSucceeds metadataRootId projectId
                folderId fileName
                = ⟨[(uploadTargetFolder metadataRootId projectId folderId,
                     jsBaseName fileName), (p, jsBaseName fileName)], true,
                   (attempt p).isOk⟩ := by
              unfold uploadFile
              rw [hat, hpr]
              simp [hpt]
            rw [heq]
            refine ⟨by simp, ?_, ?_, ?_, ?_⟩
            · intro h; cases h
            · intro m h; cases h
            · intro _
              exact ⟨rfl, p, rfl, hpt, rfl⟩
            · intro _
              refine ⟨rfl, ?_⟩
              intro q hq hqt
              cases hq
              exact ⟨rfl, fun hfail => hfail⟩

/-- Witness for C7 on concrete oracles: a first attempt that the remote
accepts is performed exactly once, with no probing and no retry. -/
theorem C7_upload_retry_witness :
    uploadFile (fun _ => UploadOutcome.ok) (fun _ => false)
      (some "aabbccdd0011223300000009") "aabbccdd0011223300000004"
      (some "f123") "figures/plot.png"
      = ⟨[("f123", "plot.png")], false, true⟩ := by
  have h := C7_upload_retry (fun _ => UploadOutcome.ok) (fun _ => false)
    (some "aabbccdd0011223300000009") "aabbccdd0011223300000004"
    (some "f123") "figures/plot.png" _ rfl
  rw [h.2.1 rfl]
  decide

/-- Every `uploadFile` call makes either one attempt against the resolved
target folder, or that attempt followed by one retry against a probed
handle; every attempt carries the base name. -/
theorem uploadFile_attempts_shape
    (attempt : String → UploadOutcome) (probeSucceeds : String → Bool)
    (metadataRootId : Option String) (projectId : String)
    (folderId : Option String) (fileName : String) :
    (uploadFile attempt probeSucceeds metadataRootId projectId folderId
        fileName).attempts
      = [(uploadTargetFolder metadataRootId projectId folderId,
          jsBaseName fileName)] ∨
    ∃ p, (uploadFile attempt probeSucceeds metadataRootId projectId folderId
        fileName).attempts
      = [(uploadTargetFolder metadataRootId projectId folderId,
          jsBaseName fileName), (p, jsBaseName fileName)] := by
  unfold uploadFile
  cases attempt (uploadTargetFolder metadataRootId projectId folderId) with
  | ok => exact Or.inl rfl
  | otherError m => exact Or.inl rfl
  | folderNotFound =>
      cases probeRootFolderId projectId probeSucceeds with
      | none => exact Or.inl rfl
      | some p =>
          by_cases hpt : p = uploadTargetFolder metadataRootId projectId folderId
          · exact Or.inl (by simp [hpt])
          · exact Or.inr ⟨p, by simp [hpt]⟩

/-- C9: when a fileName holds slash separators (and its last segment is
nonempty), every upload attempt of `uploadFile` uses only the final segment
as the uploaded name, and a null folderId targets the resolved root folder;
push and sync pass each file's relative path with a null folderId, so nested
local files land in the project's top-level folder under their base name. -/
theorem C9_upload_flattens
    (attempt : String → UploadOutcome) (probeSucceeds : String → Bool)
    (metadataRootId : Option String) (projectId fileName seg : String)
    (hseg : (jsSplitSlash fileName).getLastD "" = seg)
    (hne : seg ≠ "")
    (hsep : 2 ≤ (jsSplitSlash fileName).length) :
    (∀ folderId, ∀ a ∈ (uploadFile attempt probeSucceeds metadataRootId projectId
        folderId fileName).attempts, a.2 = seg) ∧
    ((uploadFile attempt probeSucceeds metadataRootId projectId none
        fileName).attempts.head?.map Prod.fst
      = some (getRootFolderId metadataRootId projectId)) ∧
    (∀ (all : Bool) (meta0 : Option Meta) (tree : FsEntries)
        (uploadOk : String → Bool) (endT : Nat),
      (push all false meta0 tree uploadOk endT).uploadCalls
        = (push all false meta0 tree uploadOk endT).candidates.map
            (fun c => ((none : Option String), c.1))) ∧
    (∀ s : SyncRun, ∀ call ∈ syncUploadCalls s, call.1 = (none : Option String)) := by
  have hbase : jsBaseName fileName = seg := by
    unfold jsBaseName
    rw [hseg, if_neg hne]
  refine ⟨?_, ?_, ?_, ?_⟩
  · intro folderId a ha
    rcases uploadFile_attempts_shape attempt probeSucceeds metadataRootId
        projectId folderId fileName with hsh | ⟨p, hsh⟩
    · rw [hsh] at ha
      simp at ha
      simp [ha, hbase]
    · rw [hsh] at ha
      simp at ha
      rcases ha with ha | ha <;> simp [ha, hbase]
  · rcases uploadFile_attempts_shape attempt probeSucceeds metadataRootId
        projectId none fileName with hsh | ⟨p, hsh⟩ <;>
      rw [hsh] <;> rfl
  · intro all meta0 tree uploadOk endT
    by_cases hempty :
        (scanEntries all (meta0.bind (·.lastPull)) "" tree).isEmpty = true
    · have h1 : push all false meta0 tree uploadOk endT
          = ⟨scanEntries all (meta0.bind (·.lastPull)) "" tree, [], 0, 0, meta0⟩ := by
        unfold push
        rw [if_pos hempty]
      have h2 : scanEntries all (meta0.bind (·.lastPull)) "" tree = [] := by
        rwa [List.isEmpty_iff] at hempty
      rw [h1, h2]
      rfl
    · have h1 : push all false meta0 tree uploadOk endT
          = ⟨scanEntries all (meta0.bind (·.lastPull)) "" tree,
             (scanEntries all (meta0.bind (·.lastPull)) "" tree).map
               (fun c => ((none : Option String), c.1)),
             ((scanEntries all (meta0.bind (·.lastPull)) "" tree).filter
               (fun c => uploadOk c.1)).length,
             ((scanEntries all (meta0.bind (·.lastPull)) "" tree).filter
               (fun c => !uploadOk c.1)).length,
             meta0.map (fun m => { m with lastPush := some endT })⟩ := by
        unfold push
        rw [if_neg hempty]
        simp
      rw [h1]
  · intro s call hcall
    unfold syncUploadCalls at hcall
    obtain ⟨e, -, he⟩ := List.mem_map.mp hcall
    rw [← he]

/-- Witness for C9: the nested name `figures/plot.png` uploads under
`plot.png` into the root folder. -/
theorem C9_upload_flattens_witness :
    (∀ a ∈ (uploadFile (fun _ => UploadOutcome.ok) (fun _ => false)
        (some "aabbccdd0011223300000009") "aabbccdd0011223300000004"
        (some "f123") "figures/plot.png").attempts, a.2 = "plot.png") ∧
    (uploadFile (fun _ => UploadOutcome.ok) (fun _ => false)
        (some "aabbccdd0011223300000009") "aabbccdd0011223300000004"
        none "figures/plot.png").attempts.head?.map Prod.fst
      = some (getRootFolderId (some "aabbccdd0011223300000009")
          "aabbccdd0011223300000004") := by
  have h := C9_upload_flattens (fun _ => UploadOutcome.ok) (fun _ => false)
    (some "aabbccdd0011223300000009") "aabbccdd0011223300000004"
    "figures/plot.png" "plot.png" (by decide) (by decide) (by decide)
  exact ⟨h.1 (some "f123"), h.2.1⟩

end Olcli
